import Mathlib

/-!
# Verification of the encrypted-container decoder

Shallow embedding of the decryption pipeline of the whatsapp-msgstore-web-viewer
repository: the decoder in `src/services/encryptionService.ts` and its duplicate
in the background worker module (`src/unnamed/part_001`).

Byte buffers (`ArrayBuffer` / `Uint8Array`) are modelled as `List Nat`; reads
reduce values mod 256 exactly where the JavaScript typed-array machinery does.
JavaScript binary strings (forge's key/iv/data representation) are also lists of
char codes.  `DataView` reads throw an (untyped) `RangeError` when out of
bounds, while `slice` clamps; both behaviours are reproduced faithfully,
including handling of negative indices.  The external cryptographic and
compression primitives (node-forge HMAC-SHA256 / AES-GCM, pako inflate) are
parameters of the model (`CryptoPrims`): all claims are about the pipeline
built around them.

The protobuf scan loops of the source can fail to make progress (a
length-delimited field whose encoded length is a negative 32-bit value moves
the cursor backwards), so the two scan loops take explicit fuel; running out of
fuel (`none` / `.spin`) models the real code's non-termination on such inputs.
-/

set_option maxHeartbeats 1000000

set_option maxRecDepth 20000

/-- Errors surfaced by the decode pipeline.  `rangeError` models the untyped
out-of-bounds exception thrown by a `DataView` read; `err msg` models a thrown
`Error(msg)`.  `truncatedContainer` is modelled from the spec: the
specification's error taxonomy names a typed `TruncatedContainer` error, which
the code itself never constructs; it is included so claims about it can be
stated. -/
inductive JsError where
  | rangeError : JsError
  | err : String → JsError
  | truncatedContainer : JsError
deriving DecidableEq

/-- The three container formats (`EncryptionType` in both modules). -/
inductive EncryptionType where
  | crypt12 : EncryptionType
  | crypt14 : EncryptionType
  | crypt15 : EncryptionType
deriving DecidableEq

/-- Normalize one JavaScript `slice` index against a buffer of length `n`:
negative indices count from the end, and everything clamps into `[0, n]`. -/
def jsIndex (n : Nat) (i : Int) : Nat :=
  if i < 0 then ((n : Int) + i).toNat else min i.toNat n

/-- JavaScript `TypedArray.prototype.slice(s, e)` (also `ArrayBuffer.slice`):
clamping, never throwing. -/
def jsSlice (buf : List Nat) (s e : Int) : List Nat :=
  (buf.take (jsIndex buf.length e)).drop (jsIndex buf.length s)

/-- JavaScript `DataView.getUint8`: an in-bounds read returns the byte,
an out-of-bounds index throws a `RangeError`. -/
def getUint8 (buf : List Nat) (i : Int) : Except JsError Nat :=
  if 0 ≤ i ∧ i < (buf.length : Int) then .ok (buf.getD i.toNat 0 % 256)
  else .error .rangeError

/-- Reinterpret an unsigned 32-bit pattern as the signed value JavaScript
number arithmetic sees after a bitwise operation. -/
def asInt32 (p : Nat) : Int :=
  if p < 2147483648 then (p : Int) else (p : Int) - 4294967296

/-- The external primitives the pipeline calls: node-forge's HMAC-SHA256
(`key → message → digest`), forge's AES-GCM decryption output
(`key → iv → ciphertext → output bytes`), forge's AES-GCM tag verification
(`key → iv → tag → ciphertext → finish() result`), and pako's `inflate`
(`none` models a thrown decompression error).  These are third-party library
functions, not code of this repository; the model is parametric in them. -/
structure CryptoPrims where
  hmacSha256 : List Nat → List Nat → List Nat
  gcmDecrypt : List Nat → List Nat → List Nat → List Nat
  gcmCheck : List Nat → List Nat → List Nat → List Nat → Bool
  inflate : List Nat → Option (List Nat)

namespace EncryptionService

/-- Embeds `toBinaryString` (src/services/encryptionService.ts lines 122-133): byte
array to JS string of char codes; `String.fromCharCode` truncates to 16 bits
(identity on actual bytes). -/
def toBinaryString (bytes : List Nat) : List Nat :=
  bytes.map (· % 65536)

/-- Embeds `deriveCrypt15Key` (src/services/encryptionService.ts lines 136-166).
The source calls `hmacA.start` twice (once with a forge buffer, then again with
the binary string); the second call resets the HMAC state, so only the binary
string key is effective and only it is modelled.  The final conversion of the
digest binary string into a `Uint8Array` truncates char codes mod 256. -/
def deriveCrypt15Key (hmacSha256 : List Nat → List Nat → List Nat)
    (rootKey : List Nat) : List Nat :=
  let nullSeed : List Nat := List.replicate 32 0
  let privateKey := hmacSha256 (toBinaryString nullSeed) (toBinaryString rootKey)
  let finalKey := hmacSha256 privateKey (("backup encryption".data.map Char.toNat) ++ [1])
  finalKey.map (· % 256)

/-- Embeds `readVarint` (src/services/encryptionService.ts lines 218-230): guarded
varint read over the protobuf header region.  The explicit `pbOffset >=
byteLength` guard throws `Error("EOF")`; a negative offset still reaches the
unguarded `getUint8` and throws a `RangeError`.  Accumulation follows the
JavaScript 32-bit semantics of `tag |= (b & 0x7F) << shift` (shift counts are
taken mod 32, the result is a 32-bit pattern).  The varint loop advances one
byte per iteration and stops at the end of the buffer, so it always terminates;
its structural fuel argument is passed as `buf.length + 1` at every call site,
which keeps the fuel-exhaustion branch unreachable. -/
def readVarintG (buf : List Nat) : Nat → Int → Nat → Nat → Except JsError (Nat × Int)
  | 0, _, _, _ => .error .rangeError
  | fuel + 1, off, acc, shift =>
    if (buf.length : Int) ≤ off then .error (.err "EOF")
    else if 0 ≤ off then
      let b := buf.getD off.toNat 0 % 256
      let acc' := acc ||| (((b &&& 127) <<< (shift % 32)) % 4294967296)
      if b &&& 128 = 0 then .ok (acc', off + 1)
      else readVarintG buf fuel (off + 1) acc' (shift + 7)
    else .error .rangeError

/-- The unguarded varint reads of the sub-message scan
(src/services/encryptionService.ts lines 245-261 and 266-272): no EOF check,
an out-of-bounds `getUint8` throws a `RangeError`.  (Same fuel convention as
`readVarintG`.) -/
def readVarintU (buf : List Nat) : Nat → Int → Nat → Nat → Except JsError (Nat × Int)
  | 0, _, _, _ => .error .rangeError
  | fuel + 1, off, acc, shift =>
    if 0 ≤ off ∧ off < (buf.length : Int) then
      let b := buf.getD off.toNat 0 % 256
      let acc' := acc ||| (((b &&& 127) <<< (shift % 32)) % 4294967296)
      if b &&& 128 = 0 then .ok (acc', off + 1)
      else readVarintU buf fuel (off + 1) acc' (shift + 7)
    else .error .rangeError

/-- The wire-type-0 skip of the top-level scan
(src/services/encryptionService.ts line 279):
`while ((pbView.getUint8(pbOffset++) & 0x80) !== 0);`.  (Same fuel convention
as `readVarintG`.) -/
def skipVarintU (buf : List Nat) : Nat → Int → Except JsError Int
  | 0, _ => .error .rangeError
  | fuel + 1, off =>
    if 0 ≤ off ∧ off < (buf.length : Int) then
      if buf.getD off.toNat 0 % 256 &&& 128 = 0 then .ok (off + 1)
      else skipVarintU buf fuel (off + 1)
    else .error .rangeError

/-- Outcome of the inner (field-3 sub-message) scan loop: normal exit, an
exception that aborts the whole header scan (keeping the IV found so far), or
out of fuel (modelling non-termination). -/
inductive SubRes where
  | norm : Option (List Nat) → SubRes
  | thrown : Option (List Nat) → SubRes
  | spin : SubRes
deriving DecidableEq

/-- The inner scan over a field-3 sub-message payload
(src/services/encryptionService.ts lines 242-276).  Sub-field 1 with wire type
2 and encoded length exactly 16 records the IV; other wire-type-2 sub-fields
are skipped; anything else breaks the loop.  Unguarded reads throw, which the
outer catch swallows. -/
def subLoop (payload : List Nat) : Nat → Int → Option (List Nat) → SubRes
  | 0, _, _ => .spin
  | fuel + 1, off, found =>
    if off < (payload.length : Int) then
      match readVarintU payload (payload.length + 1) off 0 0 with
      | .error _ => .thrown found
      | .ok (sTag, o1) =>
        let sWire := sTag % 8
        let sField := sTag / 8
        if sField = 1 ∧ sWire = 2 then
          match readVarintU payload (payload.length + 1) o1 0 0 with
          | .error _ => .thrown found
          | .ok (sLenPat, o2) =>
            let found' := if sLenPat = 16 then some (jsSlice payload o2 (o2 + 16)) else found
            subLoop payload fuel (o2 + asInt32 sLenPat) found'
        else if sWire = 2 then
          match readVarintU payload (payload.length + 1) o1 0 0 with
          | .error _ => .thrown found
          | .ok (sLenPat, o2) => subLoop payload fuel (o2 + asInt32 sLenPat) found
        else .norm found
    else .norm found

/-- The top-level header scan (src/services/encryptionService.ts lines
232-284).  Wire type 2 reads a length and either scans a field-3 sub-message
or skips the payload (the source also materialises the payload slice in the
skip case, without using it); wire types 0/1/5 are skipped; any other wire
type breaks.  `Error("EOF")` and `RangeError` are caught by the surrounding
try/catch, which keeps the IV found so far.  `none` models non-termination. -/
def pbLoop (pb : List Nat) : Nat → Int → Option (List Nat) → Option (Option (List Nat))
  | 0, _, _ => none
  | fuel + 1, off, found =>
    if off < (pb.length : Int) then
      match readVarintG pb (pb.length + 1) off 0 0 with
      | .error _ => some found
      | .ok (tag, off1) =>
        let wireType := tag % 8
        let fieldNum := tag / 8
        if wireType = 2 then
          match readVarintG pb (pb.length + 1) off1 0 0 with
          | .error _ => some found
          | .ok (lenPat, off2) =>
            let len := asInt32 lenPat
            if fieldNum = 3 then
              match subLoop (jsSlice pb off2 (off2 + len)) fuel 0 found with
              | .spin => none
              | .thrown f => some f
              | .norm f => pbLoop pb fuel (off2 + len) f
            else pbLoop pb fuel (off2 + len) found
        else if wireType = 0 then
          match skipVarintU pb (pb.length + 1) off1 with
          | .error _ => some found
          | .ok off2 => pbLoop pb fuel off2 found
        else if wireType = 1 then pbLoop pb fuel (off1 + 8) found
        else if wireType = 5 then pbLoop pb fuel (off1 + 4) found
        else some found
    else some found

/-- Fixed-offset geometry (src/services/encryptionService.ts lines 7-11). -/
structure EncryptionParams where
  ivOffset : Nat
  ivLength : Nat
  dbStartOffset : Nat

/-- Embeds `CRYPT_CONFIG` (src/services/encryptionService.ts lines 13-29). -/
def CRYPT_CONFIG : EncryptionType → EncryptionParams
  | .crypt12 => ⟨51, 16, 67⟩
  | .crypt14 => ⟨67, 16, 190⟩
  | .crypt15 => ⟨8, 16, 122⟩

/-- Embeds `decryptDatabase` (src/services/encryptionService.ts lines 169-345), for
invocations that supply the raw key bytes (the app always does; the
`crypto.subtle.exportKey` fallback for a missing raw key is outside the model,
as is the initial `throw` for crypt15 without raw key bytes).  The result is
`none` when the header scan spins forever, otherwise the returned buffer or
the thrown error. -/
def decryptDatabase (c : CryptoPrims) (fuel : Nat) (encryptedBuffer : List Nat)
    (type : EncryptionType) (rawKeyBytes : List Nat) :
    Option (Except JsError (List Nat)) :=
  let workingKeyBytes :=
    if type = .crypt15 then deriveCrypt15Key c.hmacSha256 rawKeyBytes
    else toBinaryString rawKeyBytes
  let view := encryptedBuffer
  if type = .crypt15 then
    match getUint8 view 0 with
    | .error e => some (.error e)
    | .ok protobufSize =>
      match getUint8 view 1 with
      | .error e => some (.error e)
      | .ok flagByte =>
        let offset : Int := if flagByte = 1 then 2 else 1
        let protobufEnd : Int := offset + (protobufSize : Int)
        let protobufBuffer := jsSlice view offset protobufEnd
        match pbLoop protobufBuffer fuel 0 none with
        | none => none
        | some foundIV =>
          let iv := match foundIV with
            | some f => toBinaryString f
            | none => toBinaryString (jsSlice view 8 24)
          let tagStart : Int := (view.length : Int) - 32
          let ciphertext := jsSlice view protobufEnd tagStart
          let tag := jsSlice view tagStart ((view.length : Int) - 16)
          if c.gcmCheck workingKeyBytes iv tag ciphertext then
            let arr := (c.gcmDecrypt workingKeyBytes iv ciphertext).map (· % 256)
            match c.inflate arr with
            | some out => some (.ok out)
            | none => some (.error (.err "Decompression failed (Invalid Zlib data)"))
          else some (.error (.err "Decryption failed (Forge Auth Mismatch)"))
  else
    let config := CRYPT_CONFIG type
    let rawIv := jsSlice view (config.ivOffset : Int)
      ((config.ivOffset : Int) + (config.ivLength : Int))
    let iv := toBinaryString rawIv
    let ciphertext :=
      if type = .crypt14 then jsSlice view (config.dbStartOffset : Int) (view.length : Int)
      else jsSlice view (config.dbStartOffset : Int) ((view.length : Int) - 20)
    let arr := (c.gcmDecrypt workingKeyBytes iv ciphertext).map (· % 256)
    match c.inflate arr with
    | some out => some (.ok out)
    | none => some (.ok arr)

/-- The whitespace set stripped by JavaScript `String.prototype.trim`
(WhiteSpace plus LineTerminator code points). -/
def isJsSpace (ch : Char) : Bool :=
  ch.toNat ∈ [9, 10, 11, 12, 13, 32, 160, 5760, 8192, 8193, 8194, 8195, 8196,
    8197, 8198, 8199, 8200, 8201, 8202, 8232, 8233, 8239, 8287, 12288, 65279]

/-- JavaScript `String.prototype.trim` on a decoded string. -/
def jsTrim (s : List Char) : List Char :=
  ((s.dropWhile isJsSpace).reverse.dropWhile isJsSpace).reverse

/-- One character of the regex class `[0-9a-fA-F]`
(src/services/encryptionService.ts line 66). -/
def isHexJS (ch : Char) : Bool :=
  decide ((48 ≤ ch.toNat ∧ ch.toNat ≤ 57) ∨ (97 ≤ ch.toNat ∧ ch.toNat ≤ 102) ∨
    (65 ≤ ch.toNat ∧ ch.toNat ≤ 70))

/-- Value of a hex digit as `parseInt(∙, 16)` sees it; non-digits give `NaN`,
which a `Uint8Array` stores as 0 (that branch is unreachable behind the
regex guard of the source). -/
def hexVal (ch : Char) : Nat :=
  if 48 ≤ ch.toNat ∧ ch.toNat ≤ 57 then ch.toNat - 48
  else if 97 ≤ ch.toNat ∧ ch.toNat ≤ 102 then ch.toNat - 87
  else if 65 ≤ ch.toNat ∧ ch.toNat ≤ 70 then ch.toNat - 55
  else 0

/-- Embeds `text.match(/.{1,2}/g)` (src/services/encryptionService.ts line 67):
chunks of two characters, with a trailing singleton for odd lengths. -/
def chunkPairs : List Char → List (List Char)
  | c1 :: c2 :: rest => [c1, c2] :: chunkPairs rest
  | [c1] => [[c1]]
  | [] => []

/-- Embeds `parseInt(b, 16)` on a one- or two-character chunk of hex digits. -/
def parseIntHex : List Char → Nat
  | [c1, c2] => 16 * hexVal c1 + hexVal c2
  | [c1] => hexVal c1
  | _ => 0

/-- Embeds `DataView.getUint32(0)` (big-endian); only called behind the
`byteLength > 4` guard, so modelled totally. -/
def getUint32BE (buf : List Nat) : Nat :=
  (buf.getD 0 0 % 256) * 16777216 + (buf.getD 1 0 % 256) * 65536 +
    (buf.getD 2 0 % 256) * 256 + buf.getD 3 0 % 256

/-- The generic `{0,0,0,32}` marker scan
(src/services/encryptionService.ts lines 82-89): first index `i ≤ length-36`
where the four-byte length prefix occurs, returning `i + 4`. -/
def findMarker (buf : List Nat) : Option Nat :=
  if buf.length < 36 then none
  else ((List.range (buf.length - 36 + 1)).find? fun i =>
    decide (buf.getD i 0 % 256 = 0 ∧ buf.getD (i + 1) 0 % 256 = 0 ∧
      buf.getD (i + 2) 0 % 256 = 0 ∧ buf.getD (i + 3) 0 % 256 = 32)).map (· + 4)

/-- Embeds `extractKey` (src/services/encryptionService.ts lines 55-118), returning
the normalized raw key bytes.  The platform `TextDecoder` is a parameter
(`textDecode`); the final WebCrypto `importKey` call (which only wraps the same
bytes in a `CryptoKey`) is outside the model.  The source's internal throws
("Invalid hex" is unreachable for a 64-character string, "Key file too small",
"Unknown key format") are all re-thrown by the surrounding catch as
`Error("Failed to parse key file")`. -/
def extractKey (textDecode : List Nat → List Char) (keyFileBuffer : List Nat) :
    Except JsError (List Nat) :=
  if keyFileBuffer.length = 32 then .ok keyFileBuffer
  else if keyFileBuffer.length = 158 then .ok (jsSlice keyFileBuffer 126 (126 + 32))
  else
    let text := jsTrim (textDecode keyFileBuffer)
    if text.length = 64 ∧ text.all isHexJS then
      .ok ((chunkPairs text).map fun b => parseIntHex b % 256)
    else if 4 < keyFileBuffer.length ∧ getUint32BE keyFileBuffer = 0xaced0005 then
      if keyFileBuffer.length = 59 then .ok (jsSlice keyFileBuffer 27 59)
      else
        match findMarker keyFileBuffer with
        | some keyStart => .ok (jsSlice keyFileBuffer (keyStart : Int) ((keyStart : Int) + 32))
        | none =>
          if 32 ≤ keyFileBuffer.length then
            .ok (jsSlice keyFileBuffer ((keyFileBuffer.length : Int) - 32)
              (keyFileBuffer.length : Int))
          else .error (.err "Failed to parse key file")
    else .error (.err "Failed to parse key file")

end EncryptionService

namespace BackupWorker

/-- Embeds `toBinaryString` (src/unnamed/part_001 lines 30-37): identical duplicate of
the service module's helper. -/
def toBinaryString (bytes : List Nat) : List Nat :=
  bytes.map (· % 65536)

/-- Embeds `deriveCrypt15Key` (src/unnamed/part_001 lines 39-58): the worker's copy of
the key derivation (here `hmacA.start` is called once, with the binary string
key, which is also the effective behaviour of the service copy). -/
def deriveCrypt15Key (hmacSha256 : List Nat → List Nat → List Nat)
    (rootKey : List Nat) : List Nat :=
  let nullSeed : List Nat := List.replicate 32 0
  let privateKey := hmacSha256 (toBinaryString nullSeed) (toBinaryString rootKey)
  let finalKey := hmacSha256 privateKey (("backup encryption".data.map Char.toNat) ++ [1])
  finalKey.map (· % 256)

/-- Embeds `readVarint` (src/unnamed/part_001 lines 115-127): the worker's guarded
varint read, a line-for-line duplicate of the service copy. -/
def readVarintG (buf : List Nat) : Nat → Int → Nat → Nat → Except JsError (Nat × Int)
  | 0, _, _, _ => .error .rangeError
  | fuel + 1, off, acc, shift =>
    if (buf.length : Int) ≤ off then .error (.err "EOF")
    else if 0 ≤ off then
      let b := buf.getD off.toNat 0 % 256
      let acc' := acc ||| (((b &&& 127) <<< (shift % 32)) % 4294967296)
      if b &&& 128 = 0 then .ok (acc', off + 1)
      else readVarintG buf fuel (off + 1) acc' (shift + 7)
    else .error .rangeError

/-- The unguarded varint reads of the worker's sub-message scan
(src/unnamed/part_001 lines 143-170). -/
def readVarintU (buf : List Nat) : Nat → Int → Nat → Nat → Except JsError (Nat × Int)
  | 0, _, _, _ => .error .rangeError
  | fuel + 1, off, acc, shift =>
    if 0 ≤ off ∧ off < (buf.length : Int) then
      let b := buf.getD off.toNat 0 % 256
      let acc' := acc ||| (((b &&& 127) <<< (shift % 32)) % 4294967296)
      if b &&& 128 = 0 then .ok (acc', off + 1)
      else readVarintU buf fuel (off + 1) acc' (shift + 7)
    else .error .rangeError

/-- The worker's wire-type-0 skip (src/unnamed/part_001 line 177). -/
def skipVarintU (buf : List Nat) : Nat → Int → Except JsError Int
  | 0, _ => .error .rangeError
  | fuel + 1, off =>
    if 0 ≤ off ∧ off < (buf.length : Int) then
      if buf.getD off.toNat 0 % 256 &&& 128 = 0 then .ok (off + 1)
      else skipVarintU buf fuel (off + 1)
    else .error .rangeError

/-- The worker's inner scan over a field-3 sub-message payload
(src/unnamed/part_001 lines 140-174).  The outcome classification
(`EncryptionService.SubRes`) is a modelling artifact and is shared. -/
def subLoop (payload : List Nat) : Nat → Int → Option (List Nat) → EncryptionService.SubRes
  | 0, _, _ => .spin
  | fuel + 1, off, found =>
    if off < (payload.length : Int) then
      match readVarintU payload (payload.length + 1) off 0 0 with
      | .error _ => .thrown found
      | .ok (sTag, o1) =>
        let sWire := sTag % 8
        let sField := sTag / 8
        if sField = 1 ∧ sWire = 2 then
          match readVarintU payload (payload.length + 1) o1 0 0 with
          | .error _ => .thrown found
          | .ok (sLenPat, o2) =>
            let found' := if sLenPat = 16 then some (jsSlice payload o2 (o2 + 16)) else found
            subLoop payload fuel (o2 + asInt32 sLenPat) found'
        else if sWire = 2 then
          match readVarintU payload (payload.length + 1) o1 0 0 with
          | .error _ => .thrown found
          | .ok (sLenPat, o2) => subLoop payload fuel (o2 + asInt32 sLenPat) found
        else .norm found
    else .norm found

/-- The worker's top-level header scan (src/unnamed/part_001 lines 129-184),
"Simplified Protobuf Parser (Copied from encryptionService)". -/
def pbLoop (pb : List Nat) : Nat → Int → Option (List Nat) → Option (Option (List Nat))
  | 0, _, _ => none
  | fuel + 1, off, found =>
    if off < (pb.length : Int) then
      match readVarintG pb (pb.length + 1) off 0 0 with
      | .error _ => some found
      | .ok (tag, off1) =>
        let wireType := tag % 8
        let fieldNum := tag / 8
        if wireType = 2 then
          match readVarintG pb (pb.length + 1) off1 0 0 with
          | .error _ => some found
          | .ok (lenPat, off2) =>
            let len := asInt32 lenPat
            if fieldNum = 3 then
              match subLoop (jsSlice pb off2 (off2 + len)) fuel 0 found with
              | .spin => none
              | .thrown f => some f
              | .norm f => pbLoop pb fuel (off2 + len) f
            else pbLoop pb fuel (off2 + len) found
        else if wireType = 0 then
          match skipVarintU pb (pb.length + 1) off1 with
          | .error _ => some found
          | .ok off2 => pbLoop pb fuel off2 found
        else if wireType = 1 then pbLoop pb fuel (off1 + 8) found
        else if wireType = 5 then pbLoop pb fuel (off1 + 4) found
        else some found
    else some found

/-- The worker's copy of the fixed-offset geometry table
(src/unnamed/part_001 lines 12-28). -/
def CRYPT_CONFIG : EncryptionType → EncryptionService.EncryptionParams
  | .crypt12 => ⟨51, 16, 67⟩
  | .crypt14 => ⟨67, 16, 190⟩
  | .crypt15 => ⟨8, 16, 122⟩

/-- The decryption pipeline of `self.onmessage` (src/unnamed/part_001 lines
60-256), for messages that carry raw key bytes (the app always sends them; a
message without them throws "Raw key bytes required for worker", outside the
model).  Progress `postMessage` calls carry no data and are not modelled; the
final `complete` / `error` message is the result.  `none` models a header scan
that spins forever. -/
def workerDecrypt (c : CryptoPrims) (fuel : Nat) (fileBuffer : List Nat)
    (type : EncryptionType) (rawKeyBytes : List Nat) :
    Option (Except JsError (List Nat)) :=
  let workingKeyBytes :=
    if type = .crypt15 then deriveCrypt15Key c.hmacSha256 rawKeyBytes
    else toBinaryString rawKeyBytes
  let view := fileBuffer
  if type = .crypt15 then
    match getUint8 view 0 with
    | .error e => some (.error e)
    | .ok protobufSize =>
      match getUint8 view 1 with
      | .error e => some (.error e)
      | .ok flagByte =>
        let offset : Int := if flagByte = 1 then 2 else 1
        let protobufEnd : Int := offset + (protobufSize : Int)
        let protobufBuffer := jsSlice view offset protobufEnd
        match pbLoop protobufBuffer fuel 0 none with
        | none => none
        | some foundIV =>
          let iv := match foundIV with
            | some f => toBinaryString f
            | none => toBinaryString (jsSlice view 8 24)
          let tagStart : Int := (view.length : Int) - 32
          let ciphertext := jsSlice view protobufEnd tagStart
          let tag := jsSlice view tagStart ((view.length : Int) - 16)
          if c.gcmCheck workingKeyBytes iv tag ciphertext then
            let arr := (c.gcmDecrypt workingKeyBytes iv ciphertext).map (· % 256)
            match c.inflate arr with
            | some out => some (.ok out)
            | none => some (.error (.err "Decompression failed (Invalid Zlib data)"))
          else some (.error (.err "Decryption failed (Forge Auth Mismatch)"))
  else
    let config := CRYPT_CONFIG type
    let rawIv := jsSlice view (config.ivOffset : Int)
      ((config.ivOffset : Int) + (config.ivLength : Int))
    let iv := toBinaryString rawIv
    let ciphertext :=
      if type = .crypt14 then jsSlice view (config.dbStartOffset : Int) (view.length : Int)
      else jsSlice view (config.dbStartOffset : Int) ((view.length : Int) - 20)
    let arr := (c.gcmDecrypt workingKeyBytes iv ciphertext).map (· % 256)
    match c.inflate arr with
    | some out => some (.ok out)
    | none => some (.ok arr)

end BackupWorker

/-- Crypt15 header-body start offset (src/services/encryptionService.ts lines
202-209): byte 0 is the header size, byte 1 is a feature flag consuming one
extra byte exactly when it equals 1. -/
def c15Start (buf : List Nat) : Int :=
  if buf.getD 1 0 % 256 = 1 then 2 else 1

/-- Crypt15 header-body end offset: start plus the size byte
(`protobufEnd` in both modules). -/
def c15End (buf : List Nat) : Int :=
  c15Start buf + (buf.getD 0 0 % 256 : Nat)

/-- The header (protobuf) region of a crypt15 container
(`protobufBuffer` in both modules). -/
def c15Region (buf : List Nat) : List Nat :=
  jsSlice buf (c15Start buf) (c15End buf)

/-- Crypt15 ciphertext: from the end of the header region through
`length - 32` (src/services/encryptionService.ts lines 292-293). -/
def c15Ciphertext (buf : List Nat) : List Nat :=
  jsSlice buf (c15End buf) ((buf.length : Int) - 32)

/-- The 16 bytes handed to forge as the GCM tag: positions
`length - 32 .. length - 16` (src/services/encryptionService.ts line 294). -/
def c15TagSlice (buf : List Nat) : List Nat :=
  jsSlice buf ((buf.length : Int) - 32) ((buf.length : Int) - 16)

/-- The final 16 bytes of the container. -/
def finalSixteen (buf : List Nat) : List Nat :=
  jsSlice buf ((buf.length : Int) - 16) (buf.length : Int)

/-- The fallback IV read when the header scan finds none: bytes 8..24
(src/services/encryptionService.ts line 289). -/
def c15FallbackIV (buf : List Nat) : List Nat :=
  jsSlice buf 8 24

/-- The IV binary string the crypt15 path hands to forge, given the header
scan's result (src/services/encryptionService.ts lines 286-290). -/
def c15IV (buf : List Nat) (foundIV : Option (List Nat)) : List Nat :=
  EncryptionService.toBinaryString (foundIV.getD (c15FallbackIV buf))

/-- Legacy-format IV slice (src/services/encryptionService.ts line 320). -/
def legacyIV (buf : List Nat) (type : EncryptionType) : List Nat :=
  jsSlice buf ((EncryptionService.CRYPT_CONFIG type).ivOffset : Int)
    (((EncryptionService.CRYPT_CONFIG type).ivOffset : Int) +
      ((EncryptionService.CRYPT_CONFIG type).ivLength : Int))

/-- Legacy-format ciphertext slice (src/services/encryptionService.ts lines
323-327): to the end of the buffer for crypt14, to `length - 20` for
crypt12. -/
def legacyCiphertext (buf : List Nat) (type : EncryptionType) : List Nat :=
  if type = .crypt14 then
    jsSlice buf ((EncryptionService.CRYPT_CONFIG type).dbStartOffset : Int) (buf.length : Int)
  else
    jsSlice buf ((EncryptionService.CRYPT_CONFIG type).dbStartOffset : Int)
      ((buf.length : Int) - 20)

/-- The raw decrypted bytes of the legacy path, after the binary-string to
`Uint8Array` conversion (src/services/encryptionService.ts lines 329-336). -/
def legacyPlain (c : CryptoPrims) (buf : List Nat) (type : EncryptionType)
    (rawKeyBytes : List Nat) : List Nat :=
  (c.gcmDecrypt (EncryptionService.toBinaryString rawKeyBytes)
    (EncryptionService.toBinaryString (legacyIV buf type))
    (legacyCiphertext buf type)).map (· % 256)

/-- Encoding of a valid field-number-3 sub-message carrying a 16-byte IV at
sub-field 1: tag `0x1A` (field 3, wire type 2), length 18, sub-tag `0x0A`
(sub-field 1, wire type 2), length 16, then the IV bytes. -/
def field3Block (iv : List Nat) : List Nat :=
  26 :: 18 :: 10 :: 16 :: iv

/-- A well-formed encoding of one unknown top-level field with a single-byte
tag, in each of the four wire types the scanner skips: varint (wire 0, a body
of continuation bytes closed by a final byte), fixed-64 (wire 1), fixed-32
(wire 5), or length-delimited (wire 2) with a field number other than 3 and a
single-byte length. -/
def SkippableField (u : List Nat) : Prop :=
  (∃ t body final, u = t :: body ++ [final] ∧ t < 128 ∧ t % 8 = 0 ∧
    (∀ b ∈ body, 128 ≤ b ∧ b < 256) ∧ final < 128) ∨
  (∃ t body, u = t :: body ∧ t < 128 ∧ t % 8 = 1 ∧ body.length = 8) ∨
  (∃ t body, u = t :: body ∧ t < 128 ∧ t % 8 = 5 ∧ body.length = 4) ∨
  (∃ t d body, u = t :: d :: body ∧ t < 128 ∧ t % 8 = 2 ∧ t / 8 ≠ 3 ∧
    d < 128 ∧ body.length = d)

/-- Primitive instance for witnesses: decryption echoes the ciphertext,
verification always succeeds, decompression succeeds returning its input. -/
def okPrims : CryptoPrims :=
  ⟨fun _ _ => List.replicate 32 0, fun _ _ ct => ct, fun _ _ _ _ => true, fun x => some x⟩

/-- Primitive instance whose tag verification always fails. -/
def failCheckPrims : CryptoPrims :=
  ⟨fun _ _ => List.replicate 32 0, fun _ _ ct => ct, fun _ _ _ _ => false, fun x => some x⟩

/-- Primitive instance whose decompression always fails. -/
def noInflatePrims : CryptoPrims :=
  ⟨fun _ _ => List.replicate 32 0, fun _ _ ct => ct, fun _ _ _ _ => true, fun _ => none⟩

/-- Primitive instance whose tag verification accepts exactly one expected tag
value: used to observe which bytes the pipeline hands over as the tag. -/
def tagProbePrims (expected : List Nat) : CryptoPrims :=
  ⟨fun _ _ => List.replicate 32 0, fun _ _ ct => ct,
    fun _ _ tg _ => decide (tg = expected), fun x => some x⟩

/-- Primitive instance whose decryption output is the IV it was handed: used
to observe which IV the pipeline computed. -/
def ivEchoPrims : CryptoPrims :=
  ⟨fun _ _ => List.replicate 32 0, fun _ iv _ => iv, fun _ _ _ _ => true, fun x => some x⟩

/-- Concrete crypt15 container for the C1 counterexample: size byte 1, no
feature flag, 30 zero bytes, then 16 bytes of 7 (positions 32..48) and
16 bytes of 9 (positions 48..64). -/
def bufC1 : List Nat :=
  [1, 0] ++ List.replicate 30 0 ++ List.replicate 16 7 ++ List.replicate 16 9

/-- Shared 24-byte prefix for the C10 counterexample: the size byte (38)
makes the header region reach to clamped position 39, inside the trailing
16 bytes, and the header encodes a skip field followed by a field-3
sub-message whose IV bytes start exactly at position 24. -/
def prefC10 : List Nat :=
  [38, 10, 17] ++ List.replicate 17 0 ++ [26, 18, 10, 16]

/-- First C10 container: prefix plus sixteen 5s. -/
def bufC10a : List Nat := prefC10 ++ List.replicate 16 5

/-- Second C10 container: prefix plus sixteen 9s. -/
def bufC10b : List Nat := prefC10 ++ List.replicate 16 9

/-- ASCII text decoder used for concrete instances (agrees with the platform
`TextDecoder` on ASCII bytes). -/
def asciiDecode (l : List Nat) : List Char :=
  l.map Char.ofNat

/-- Concrete 158-byte key-material buffer for the C9 counterexample: 94 spaces followed
by 64 ASCII "a" characters. -/
def bufC9 : List Nat :=
  List.replicate 94 32 ++ List.replicate 64 97

/-- Lower-case hex digit for a value below 16. -/
def hexChar (n : Nat) : Char :=
  Char.ofNat (if n < 10 then 48 + n else 87 + n)

/-- Lower-case hex encoding of a byte list (the reference direction of the
round-trip stated in the spec). -/
def hexEncode (k : List Nat) : List Char :=
  k.flatMap fun b => [hexChar (b / 16), hexChar (b % 16)]

/-- JavaScript-style ASCII lower-casing of one character (the spec's
"case-normalized" input). -/
def jsToLower (ch : Char) : Char :=
  if 65 ≤ ch.toNat ∧ ch.toNat ≤ 90 then Char.ofNat (ch.toNat + 32) else ch

/-! ## Helper lemmas -/

theorem land127_of_lt : ∀ t : Nat, t < 128 → t &&& 127 = t := by decide

theorem land128_of_lt : ∀ t : Nat, t < 128 → t &&& 128 = 0 := by decide

theorem land128_of_ge : ∀ t : Nat, 128 ≤ t → t < 256 → t &&& 128 = 128 := by decide

theorem getD_of_drop {buf tl : List Nat} {n x : Nat}
    (h : buf.drop n = x :: tl) :
    buf.getD n 0 = x ∧ n < buf.length ∧ buf.drop (n + 1) = tl := by
  have hlen : n < buf.length := by
    by_contra hc
    rw [List.drop_eq_nil_of_le (by omega)] at h
    cases h
  refine ⟨?_, hlen, ?_⟩
  · have h0 := List.getElem?_drop buf n 0
    rw [h] at h0
    simp only [List.getElem?_cons_zero, Nat.add_zero] at h0
    simp [List.getD_eq_getElem?_getD, ← h0]
  · have h1 : List.drop 1 (buf.drop n) = tl := by rw [h]; rfl
    rwa [List.drop_drop] at h1

theorem toBinaryString_worker_eq :
    BackupWorker.toBinaryString = EncryptionService.toBinaryString := rfl

theorem deriveCrypt15Key_worker_eq :
    BackupWorker.deriveCrypt15Key = EncryptionService.deriveCrypt15Key := rfl

theorem readVarintG_worker_eq (buf : List Nat) (fuel : Nat) (off : Int) (acc shift : Nat) :
    BackupWorker.readVarintG buf fuel off acc shift =
      EncryptionService.readVarintG buf fuel off acc shift := by
  induction fuel generalizing off acc shift with
  | zero => rfl
  | succ k ih =>
    unfold BackupWorker.readVarintG EncryptionService.readVarintG
    by_cases h1 : (buf.length : Int) ≤ off
    · rw [if_pos h1, if_pos h1]
    · rw [if_neg h1, if_neg h1]
      by_cases h2 : (0 : Int) ≤ off
      · rw [if_pos h2, if_pos h2]
        dsimp only
        by_cases h3 : buf.getD off.toNat 0 % 256 &&& 128 = 0
        · rw [if_pos h3, if_pos h3]
        · rw [if_neg h3, if_neg h3]
          exact ih (off + 1) _ _
      · rw [if_neg h2, if_neg h2]

theorem readVarintU_worker_eq (buf : List Nat) (fuel : Nat) (off : Int) (acc shift : Nat) :
    BackupWorker.readVarintU buf fuel off acc shift =
      EncryptionService.readVarintU buf fuel off acc shift := by
  induction fuel generalizing off acc shift with
  | zero => rfl
  | succ k ih =>
    unfold BackupWorker.readVarintU EncryptionService.readVarintU
    by_cases h2 : 0 ≤ off ∧ off < (buf.length : Int)
    · rw [if_pos h2, if_pos h2]
      dsimp only
      by_cases h3 : buf.getD off.toNat 0 % 256 &&& 128 = 0
      · rw [if_pos h3, if_pos h3]
      · rw [if_neg h3, if_neg h3]
        exact ih (off + 1) _ _
    · rw [if_neg h2, if_neg h2]

theorem skipVarintU_worker_eq (buf : List Nat) (fuel : Nat) (off : Int) :
    BackupWorker.skipVarintU buf fuel off = EncryptionService.skipVarintU buf fuel off := by
  induction fuel generalizing off with
  | zero => rfl
  | succ k ih =>
    unfold BackupWorker.skipVarintU EncryptionService.skipVarintU
    by_cases h2 : 0 ≤ off ∧ off < (buf.length : Int)
    · rw [if_pos h2, if_pos h2]
      by_cases h3 : buf.getD off.toNat 0 % 256 &&& 128 = 0
      · rw [if_pos h3, if_pos h3]
      · rw [if_neg h3, if_neg h3]
        exact ih (off + 1)
    · rw [if_neg h2, if_neg h2]

theorem subLoop_worker_eq (payload : List Nat) (fuel : Nat) (off : Int)
    (found : Option (List Nat)) :
    BackupWorker.subLoop payload fuel off found =
      EncryptionService.subLoop payload fuel off found := by
  induction fuel generalizing off found with
  | zero => rfl
  | succ k ih =>
    unfold BackupWorker.subLoop EncryptionService.subLoop
    simp only [readVarintU_worker_eq, ih]

theorem pbLoop_worker_eq (pb : List Nat) (fuel : Nat) (off : Int)
    (found : Option (List Nat)) :
    BackupWorker.pbLoop pb fuel off found =
      EncryptionService.pbLoop pb fuel off found := by
  induction fuel generalizing off found with
  | zero => rfl
  | succ k ih =>
    unfold BackupWorker.pbLoop EncryptionService.pbLoop
    simp only [readVarintG_worker_eq, skipVarintU_worker_eq, subLoop_worker_eq, ih]

theorem CRYPT_CONFIG_worker_eq :
    BackupWorker.CRYPT_CONFIG = EncryptionService.CRYPT_CONFIG := by
  funext t
  cases t <;> rfl

/-- C7: for every container buffer, encryption type and supplied raw key, the
pipeline implemented in `decryptDatabase` (src/services/encryptionService.ts)
and the duplicated pipeline of the background worker (src/unnamed/part_001)
compute the same result: the same output buffer on success and the same failure
in exactly the same cases (including spinning on the same inputs). -/
theorem c7_worker_service_equivalence (c : CryptoPrims) (fuel : Nat)
    (buffer : List Nat) (type : EncryptionType) (rawKeyBytes : List Nat) :
    BackupWorker.workerDecrypt c fuel buffer type rawKeyBytes =
      EncryptionService.decryptDatabase c fuel buffer type rawKeyBytes := by
  unfold BackupWorker.workerDecrypt EncryptionService.decryptDatabase
  simp only [deriveCrypt15Key_worker_eq, toBinaryString_worker_eq, pbLoop_worker_eq,
    CRYPT_CONFIG_worker_eq]

theorem getUint8_ok {buf : List Nat} {i : Int} (h0 : 0 ≤ i)
    (h : i < (buf.length : Int)) :
    getUint8 buf i = .ok (buf.getD i.toNat 0 % 256) := by
  unfold getUint8
  rw [if_pos ⟨h0, h⟩]

theorem decrypt15_characterization (c : CryptoPrims) (fuel : Nat)
    (buf rawKey : List Nat) (h2 : 2 ≤ buf.length) :
    EncryptionService.decryptDatabase c fuel buf .crypt15 rawKey =
      match EncryptionService.pbLoop (c15Region buf) fuel 0 none with
      | none => none
      | some foundIV =>
        if c.gcmCheck (EncryptionService.deriveCrypt15Key c.hmacSha256 rawKey)
            (c15IV buf foundIV) (c15TagSlice buf) (c15Ciphertext buf) then
          match c.inflate ((c.gcmDecrypt
              (EncryptionService.deriveCrypt15Key c.hmacSha256 rawKey)
              (c15IV buf foundIV) (c15Ciphertext buf)).map (· % 256)) with
          | some out => some (.ok out)
          | none => some (.error (.err "Decompression failed (Invalid Zlib data)"))
        else some (.error (.err "Decryption failed (Forge Auth Mismatch)")) := by
  unfold EncryptionService.decryptDatabase
  rw [if_pos rfl, if_pos rfl]
  rw [getUint8_ok (by omega) (by omega), getUint8_ok (by omega) (by omega)]
  dsimp only
  simp only [Int.toNat_zero, Int.toNat_one]
  have hstart : (if buf.getD 1 0 % 256 = 1 then (2 : Int) else 1) = c15Start buf := rfl
  rw [hstart]
  have hend : c15Start buf + (buf.getD 0 0 % 256 : Nat) = c15End buf := rfl
  rw [hend]
  cases hpb : EncryptionService.pbLoop (c15Region buf) fuel 0 none with
  | none => rw [show jsSlice buf (c15Start buf) (c15End buf) = c15Region buf from rfl, hpb]
  | some foundIV =>
    rw [show jsSlice buf (c15Start buf) (c15End buf) = c15Region buf from rfl, hpb]
    cases foundIV <;> rfl

/-- C3: on every crypt15 run that reaches the decryption stage (buffer length
at least 2, header scan terminated) and in which the engine's GCM tag
verification fails at the key, IV, tag slice and ciphertext the pipeline
actually computes — for instance because a tag bit was flipped or a ciphertext
byte tampered with — the pipeline fails with the authentication error
"Decryption failed (Forge Auth Mismatch)": it returns no plaintext bytes and
never reaches decompression, so it never fails with the decompression
error. -/
theorem c3_auth_failure_is_terminal (c : CryptoPrims) (fuel : Nat)
    (buf rawKey : List Nat) (h2 : 2 ≤ buf.length) (foundIV : Option (List Nat))
    (hp : EncryptionService.pbLoop (c15Region buf) fuel 0 none = some foundIV)
    (hcheck : c.gcmCheck (EncryptionService.deriveCrypt15Key c.hmacSha256 rawKey)
      (c15IV buf foundIV) (c15TagSlice buf) (c15Ciphertext buf) = false) :
    EncryptionService.decryptDatabase c fuel buf .crypt15 rawKey =
      some (.error (.err "Decryption failed (Forge Auth Mismatch)")) := by
  rw [decrypt15_characterization c fuel buf rawKey h2, hp]
  dsimp only
  rw [hcheck]
  simp only [Bool.false_eq_true, if_false]

theorem c3_auth_failure_is_terminal_witness :
    2 ≤ bufC1.length ∧
    EncryptionService.pbLoop (c15Region bufC1) 10 0 none = some none ∧
    failCheckPrims.gcmCheck
        (EncryptionService.deriveCrypt15Key failCheckPrims.hmacSha256 (List.replicate 32 0))
        (c15IV bufC1 none) (c15TagSlice bufC1) (c15Ciphertext bufC1) = false ∧
    EncryptionService.decryptDatabase failCheckPrims 10 bufC1 .crypt15 (List.replicate 32 0) =
      some (.error (.err "Decryption failed (Forge Auth Mismatch)")) :=
  ⟨by decide, by rfl, rfl,
    c3_auth_failure_is_terminal failCheckPrims 10 bufC1 (List.replicate 32 0)
      (by decide) none (by rfl) rfl⟩

theorem decryptLegacy_characterization (c : CryptoPrims) (fuel : Nat)
    (buf rawKey : List Nat) (type : EncryptionType) (h : type ≠ .crypt15) :
    EncryptionService.decryptDatabase c fuel buf type rawKey =
      some (match c.inflate (legacyPlain c buf type rawKey) with
        | some out => .ok out
        | none => .ok (legacyPlain c buf type rawKey)) := by
  unfold EncryptionService.decryptDatabase
  rw [if_neg h, if_neg h]
  unfold legacyPlain legacyIV legacyCiphertext
  dsimp only
  cases hinf : c.inflate ((c.gcmDecrypt (EncryptionService.toBinaryString rawKey)
      (EncryptionService.toBinaryString (jsSlice buf
        ((EncryptionService.CRYPT_CONFIG type).ivOffset : Int)
        (((EncryptionService.CRYPT_CONFIG type).ivOffset : Int) +
          ((EncryptionService.CRYPT_CONFIG type).ivLength : Int))))
      (if type = .crypt14 then
        jsSlice buf ((EncryptionService.CRYPT_CONFIG type).dbStartOffset : Int) (buf.length : Int)
      else
        jsSlice buf ((EncryptionService.CRYPT_CONFIG type).dbStartOffset : Int)
          ((buf.length : Int) - 20))).map (· % 256)) with
  | none => rfl
  | some out => rfl

/-- C5: if the deflate decompression call on the actually decrypted plaintext
fails, a legacy-format (crypt12/crypt14) invocation returns the raw decrypted
bytes byte-for-byte unchanged, while a crypt15 invocation that reached
decompression (buffer long enough, header scan terminated, tag verified at the
computed IV/tag/ciphertext) fails with the typed error
"Decompression failed (Invalid Zlib data)" and yields no output buffer. -/
theorem c5_decompression_policy (c : CryptoPrims) (fuel : Nat)
    (buf rawKey : List Nat) :
    (∀ type, type ≠ .crypt15 → c.inflate (legacyPlain c buf type rawKey) = none →
      EncryptionService.decryptDatabase c fuel buf type rawKey =
        some (.ok (legacyPlain c buf type rawKey))) ∧
    (∀ foundIV, 2 ≤ buf.length →
      EncryptionService.pbLoop (c15Region buf) fuel 0 none = some foundIV →
      c.gcmCheck (EncryptionService.deriveCrypt15Key c.hmacSha256 rawKey)
        (c15IV buf foundIV) (c15TagSlice buf) (c15Ciphertext buf) = true →
      c.inflate ((c.gcmDecrypt (EncryptionService.deriveCrypt15Key c.hmacSha256 rawKey)
        (c15IV buf foundIV) (c15Ciphertext buf)).map (· % 256)) = none →
      EncryptionService.decryptDatabase c fuel buf .crypt15 rawKey =
        some (.error (.err "Decompression failed (Invalid Zlib data)"))) := by
  constructor
  · intro type htype hinf
    rw [decryptLegacy_characterization c fuel buf rawKey type htype, hinf]
  · intro foundIV h2 hp hcheck hinf
    rw [decrypt15_characterization c fuel buf rawKey h2, hp]
    dsimp only
    rw [hcheck, if_pos rfl, hinf]

theorem c5_decompression_policy_witness :
    EncryptionService.decryptDatabase noInflatePrims 3 (List.replicate 100 1) .crypt12
        (List.replicate 32 0) =
      some (.ok (legacyPlain noInflatePrims (List.replicate 100 1) .crypt12
        (List.replicate 32 0))) ∧
    EncryptionService.pbLoop (c15Region bufC1) 10 0 none = some none ∧
    EncryptionService.decryptDatabase noInflatePrims 10 bufC1 .crypt15 (List.replicate 32 0) =
      some (.error (.err "Decompression failed (Invalid Zlib data)")) :=
  ⟨(c5_decompression_policy noInflatePrims 3 (List.replicate 100 1)
      (List.replicate 32 0)).1 .crypt12 (by decide) rfl,
   by rfl,
   (c5_decompression_policy noInflatePrims 10 bufC1 (List.replicate 32 0)).2
      none (by decide) (by rfl) rfl rfl⟩

/-- C1 (amended): for every crypt15 container that reaches decryption, the
ciphertext ends at `length - 32`, the 16 bytes supplied to the decryption
engine as the GCM tag are the bytes at positions `length-32 .. length-16`
(`c15TagSlice`), and the final 16 bytes are the ones this geometry leaves
unused: the whole outcome is determined by `c15Ciphertext` and `c15TagSlice`
(together with the header-derived IV), with no reference to the last 16
bytes. -/
theorem c1_modern_trailer_geometry (c : CryptoPrims) (fuel : Nat)
    (buf rawKey : List Nat) (h2 : 2 ≤ buf.length) (foundIV : Option (List Nat))
    (hp : EncryptionService.pbLoop (c15Region buf) fuel 0 none = some foundIV) :
    EncryptionService.decryptDatabase c fuel buf .crypt15 rawKey =
      some (if c.gcmCheck (EncryptionService.deriveCrypt15Key c.hmacSha256 rawKey)
          (c15IV buf foundIV) (c15TagSlice buf) (c15Ciphertext buf) then
        match c.inflate ((c.gcmDecrypt
            (EncryptionService.deriveCrypt15Key c.hmacSha256 rawKey)
            (c15IV buf foundIV) (c15Ciphertext buf)).map (· % 256)) with
        | some out => .ok out
        | none => .error (.err "Decompression failed (Invalid Zlib data)")
      else .error (.err "Decryption failed (Forge Auth Mismatch)")) := by
  rw [decrypt15_characterization c fuel buf rawKey h2, hp]
  dsimp only
  by_cases hchk : c.gcmCheck (EncryptionService.deriveCrypt15Key c.hmacSha256 rawKey)
      (c15IV buf foundIV) (c15TagSlice buf) (c15Ciphertext buf) = true
  · rw [if_pos hchk, if_pos hchk]
    cases hinf : c.inflate ((c.gcmDecrypt
        (EncryptionService.deriveCrypt15Key c.hmacSha256 rawKey)
        (c15IV buf foundIV) (c15Ciphertext buf)).map (· % 256)) with
    | none => rfl
    | some out => rfl
  · rw [if_neg hchk, if_neg hchk]

theorem c1_modern_trailer_geometry_witness :
    2 ≤ bufC1.length ∧
    EncryptionService.pbLoop (c15Region bufC1) 10 0 none = some none ∧
    EncryptionService.decryptDatabase okPrims 10 bufC1 .crypt15 (List.replicate 32 0) =
      some (if okPrims.gcmCheck (EncryptionService.deriveCrypt15Key okPrims.hmacSha256
          (List.replicate 32 0)) (c15IV bufC1 none) (c15TagSlice bufC1) (c15Ciphertext bufC1) then
        match okPrims.inflate ((okPrims.gcmDecrypt
            (EncryptionService.deriveCrypt15Key okPrims.hmacSha256 (List.replicate 32 0))
            (c15IV bufC1 none) (c15Ciphertext bufC1)).map (· % 256)) with
        | some out => .ok out
        | none => .error (.err "Decompression failed (Invalid Zlib data)")
      else .error (.err "Decryption failed (Forge Auth Mismatch)")) :=
  ⟨by decide, by rfl,
    c1_modern_trailer_geometry okPrims 10 bufC1 (List.replicate 32 0) (by decide) none (by rfl)⟩

/-- C1 counterexample: for the concrete container `bufC1` (positions 32..48
hold 7s, the final 16 bytes hold 9s) an engine that accepts exactly the
final-16-byte value as the tag fails authentication, while an engine that
accepts exactly the middle 16 bytes succeeds; so the parser supplies positions
`length-32 .. length-16` to the engine as the tag and leaves the final 16
bytes unused — the opposite of the claimed split. -/
theorem c1_tag_is_middle_sixteen_counterexample :
    EncryptionService.decryptDatabase (tagProbePrims (List.replicate 16 9)) 10 bufC1 .crypt15
        (List.replicate 32 0) =
      some (.error (.err "Decryption failed (Forge Auth Mismatch)")) ∧
    EncryptionService.decryptDatabase (tagProbePrims (List.replicate 16 7)) 10 bufC1 .crypt15
        (List.replicate 32 0) =
      some (.ok (List.replicate 30 0)) ∧
    finalSixteen bufC1 = List.replicate 16 9 ∧
    c15TagSlice bufC1 = List.replicate 16 7 := by
  refine ⟨by rfl, by rfl, by rfl, by rfl⟩

/-- C2 (amended): the code never produces a typed `TruncatedContainer` error.
A crypt15 container shorter than the 2 bytes needed by the header-size and
feature-flag reads fails with the untyped out-of-bounds `RangeError`, while a
legacy-format (crypt12/crypt14) invocation never performs an out-of-bounds
access at any buffer length — all its reads are clamping slices — and always
returns a buffer. -/
theorem c2_short_container_behaviour (c : CryptoPrims) (fuel : Nat)
    (buf rawKey : List Nat) :
    (buf.length < 2 →
      EncryptionService.decryptDatabase c fuel buf .crypt15 rawKey =
        some (.error .rangeError)) ∧
    (∀ type, type ≠ .crypt15 →
      ∃ out, EncryptionService.decryptDatabase c fuel buf type rawKey =
        some (.ok out)) := by
  constructor
  · intro hlen
    unfold EncryptionService.decryptDatabase
    rw [if_pos rfl]
    match buf, hlen with
    | [], _ =>
      have h0 : getUint8 [] 0 = .error .rangeError := by
        unfold getUint8
        rw [if_neg (by simp)]
      rw [h0]
    | [b], _ =>
      have h0 : getUint8 [b] 0 = .ok (b % 256) := by
        rw [getUint8_ok (by omega) (by simp)]
        rfl
      have h1 : getUint8 [b] 1 = .error .rangeError := by
        unfold getUint8
        rw [if_neg (by simp)]
      rw [h0, h1]
  · intro type htype
    rw [decryptLegacy_characterization c fuel buf rawKey type htype]
    cases c.inflate (legacyPlain c buf type rawKey) with
    | none => exact ⟨_, rfl⟩
    | some out => exact ⟨_, rfl⟩

theorem c2_short_container_behaviour_witness :
    EncryptionService.decryptDatabase failCheckPrims 3 [7] .crypt15 (List.replicate 32 0) =
      some (.error .rangeError) ∧
    ∃ out, EncryptionService.decryptDatabase failCheckPrims 3 [7] .crypt12
      (List.replicate 32 0) = some (.ok out) :=
  ⟨(c2_short_container_behaviour failCheckPrims 3 [7] (List.replicate 32 0)).1 (by decide),
   (c2_short_container_behaviour failCheckPrims 3 [7] (List.replicate 32 0)).2 .crypt12
    (by decide)⟩

/-- C2 counterexample: the empty buffer is shorter than any minimum a crypt15
container needs, yet the decode pipeline fails with the untyped out-of-bounds
`RangeError` — the typed `TruncatedContainer` error of the claim is never
produced by the code. -/
theorem c2_truncated_counterexample :
    EncryptionService.decryptDatabase failCheckPrims 3 [] .crypt15 (List.replicate 32 0) =
      some (.error .rangeError) ∧
    JsError.rangeError ≠ JsError.truncatedContainer := by
  exact ⟨by rfl, by decide⟩

theorem mapMod_eq_self {l : List Nat} {m : Nat} (h : ∀ b ∈ l, b < m) :
    l.map (· % m) = l := by
  induction l with
  | nil => rfl
  | cons x xs ih =>
    simp only [List.map_cons, List.cons.injEq]
    exact ⟨Nat.mod_eq_of_lt (h x (by simp)), ih fun b hb => h b (by simp [hb])⟩

/-- C4: for every 32-byte root key (indeed for any byte list), the crypt15 key
derivation is exactly the chained keyed hash
`hmacSha256 (hmacSha256 (32 zero bytes) rootKey) ("backup encryption" ‖ 0x01)`,
given only that the keyed-hash primitive returns 32-byte digests; in
particular its output always has exactly 32 bytes.  Determinism is inherent:
the derivation is a pure function of the root key. -/
theorem c4_kdf_structure (hmacSha256 : List Nat → List Nat → List Nat)
    (rootKey : List Nat)
    (hroot : ∀ b ∈ rootKey, b < 256)
    (hdigest : ∀ k m, (hmacSha256 k m).length = 32 ∧ ∀ b ∈ hmacSha256 k m, b < 256) :
    EncryptionService.deriveCrypt15Key hmacSha256 rootKey =
      hmacSha256 (hmacSha256 (List.replicate 32 0) rootKey)
        (("backup encryption".data.map Char.toNat) ++ [1]) ∧
    (EncryptionService.deriveCrypt15Key hmacSha256 rootKey).length = 32 := by
  have hbs : EncryptionService.toBinaryString rootKey = rootKey :=
    mapMod_eq_self fun b hb => lt_trans (hroot b hb) (by norm_num)
  have hz : EncryptionService.toBinaryString (List.replicate 32 0) = List.replicate 32 0 := by
    unfold EncryptionService.toBinaryString
    simp
  constructor
  · unfold EncryptionService.deriveCrypt15Key
    dsimp only
    rw [hz, hbs]
    exact mapMod_eq_self fun b hb => (hdigest _ _).2 b hb
  · unfold EncryptionService.deriveCrypt15Key
    dsimp only
    rw [List.length_map]
    exact (hdigest _ _).1

theorem c4_kdf_structure_witness :
    (∀ b ∈ (List.replicate 32 7 : List Nat), b < 256) ∧
    EncryptionService.deriveCrypt15Key (fun _ _ => List.replicate 32 5)
        (List.replicate 32 7) =
      (fun _ _ => List.replicate 32 5)
        ((fun _ _ => List.replicate 32 5) (List.replicate 32 0) (List.replicate 32 7))
        (("backup encryption".data.map Char.toNat) ++ [1]) ∧
    (EncryptionService.deriveCrypt15Key (fun _ _ => List.replicate 32 5)
        (List.replicate 32 7)).length = 32 := by
  have h := c4_kdf_structure (fun _ _ => List.replicate 32 5) (List.replicate 32 7)
    (by intro b hb; rw [List.eq_of_mem_replicate hb]; omega)
    (by intro k m; exact ⟨by simp, by intro b hb; rw [List.eq_of_mem_replicate hb]; omega⟩)
  exact ⟨by intro b hb; rw [List.eq_of_mem_replicate hb]; omega, h.1, h.2⟩

/-- C8: the Key Normalizer returns any 32-byte key-material buffer unchanged
(identity), and for any 158-byte buffer returns the 32 bytes at offsets
126..158 regardless of the surrounding content. -/
theorem c8_key_normalizer_fixed_branches (textDecode : List Nat → List Char)
    (buf : List Nat) :
    (buf.length = 32 → EncryptionService.extractKey textDecode buf = .ok buf) ∧
    (buf.length = 158 →
      EncryptionService.extractKey textDecode buf = .ok ((buf.drop 126).take 32)) := by
  constructor
  · intro h32
    unfold EncryptionService.extractKey
    rw [if_pos h32]
  · intro h158
    unfold EncryptionService.extractKey
    rw [if_neg (by omega), if_pos h158]
    have hslice : jsSlice buf 126 (126 + 32) = (buf.drop 126).take 32 := by
      unfold jsSlice jsIndex
      rw [if_neg (by norm_num), if_neg (by norm_num)]
      have h1 : min (Int.toNat 126) buf.length = 126 := by omega
      have h2 : min (Int.toNat (126 + 32)) buf.length = 158 := by
        rw [h158]
        decide
      rw [h1, h2, List.drop_take]
    rw [hslice]

theorem c8_key_normalizer_fixed_branches_witness :
    EncryptionService.extractKey asciiDecode (List.replicate 32 7) =
      .ok (List.replicate 32 7) ∧
    EncryptionService.extractKey asciiDecode (List.replicate 158 3) =
      .ok (((List.replicate 158 3).drop 126).take 32) :=
  ⟨(c8_key_normalizer_fixed_branches asciiDecode (List.replicate 32 7)).1 (by simp),
   (c8_key_normalizer_fixed_branches asciiDecode (List.replicate 158 3)).2 (by simp)⟩

theorem asInt32_small {p : Nat} (h : p < 2147483648) : asInt32 p = p := by
  unfold asInt32
  rw [if_pos h]

theorem drop_min_len {α : Type} (l : List α) (s : Nat) :
    l.drop (min s l.length) = l.drop s := by
  rcases le_total s l.length with h | h
  · rw [min_eq_left h]
  · rw [min_eq_right h, List.drop_eq_nil_of_le le_rfl, List.drop_eq_nil_of_le h]

theorem jsSlice_eq_drop (pb : List Nat) (s e : Int) (hs : 0 ≤ s)
    (he : e = (pb.length : Int)) :
    jsSlice pb s e = pb.drop s.toNat := by
  unfold jsSlice jsIndex
  rw [if_neg (by omega), if_neg (by omega)]
  have h1 : min e.toNat pb.length = pb.length := by omega
  rw [h1, List.take_length, drop_min_len]

theorem readVarintG_byte {buf : List Nat} {off : Int} {fuel : Nat} {t : Nat}
    (hf : 1 ≤ fuel) (h0 : 0 ≤ off) (h1 : off < (buf.length : Int))
    (hb : buf.getD off.toNat 0 = t) (ht : t < 128) :
    EncryptionService.readVarintG buf fuel off 0 0 = .ok (t, off + 1) := by
  obtain ⟨k, rfl⟩ : ∃ k, fuel = k + 1 := ⟨fuel - 1, by omega⟩
  unfold EncryptionService.readVarintG
  rw [if_neg (by omega), if_pos h0]
  dsimp only
  rw [hb, Nat.mod_eq_of_lt (show t < 256 by omega)]
  rw [if_pos (land128_of_lt t ht), land127_of_lt t ht]
  rw [show (0 : Nat) % 32 = 0 from rfl, Nat.shiftLeft_zero,
    Nat.mod_eq_of_lt (show t < 4294967296 by omega), Nat.zero_or]

theorem readVarintU_byte {buf : List Nat} {off : Int} {fuel : Nat} {t : Nat}
    (hf : 1 ≤ fuel) (h0 : 0 ≤ off) (h1 : off < (buf.length : Int))
    (hb : buf.getD off.toNat 0 = t) (ht : t < 128) :
    EncryptionService.readVarintU buf fuel off 0 0 = .ok (t, off + 1) := by
  obtain ⟨k, rfl⟩ : ∃ k, fuel = k + 1 := ⟨fuel - 1, by omega⟩
  unfold EncryptionService.readVarintU
  rw [if_pos ⟨h0, h1⟩]
  dsimp only
  rw [hb, Nat.mod_eq_of_lt (show t < 256 by omega)]
  rw [if_pos (land128_of_lt t ht), land127_of_lt t ht]
  rw [show (0 : Nat) % 32 = 0 from rfl, Nat.shiftLeft_zero,
    Nat.mod_eq_of_lt (show t < 4294967296 by omega), Nat.zero_or]

theorem skipVarintU_skips (buf : List Nat) :
    ∀ (body : List Nat) (fuel : Nat) (off : Int) (fin : Nat) (rest : List Nat),
      body.length + 1 ≤ fuel → 0 ≤ off →
      buf.drop off.toNat = body ++ fin :: rest →
      (∀ b ∈ body, 128 ≤ b ∧ b < 256) → fin < 128 →
      EncryptionService.skipVarintU buf fuel off = .ok (off + body.length + 1) := by
  intro body
  induction body with
  | nil =>
    intro fuel off fin rest hf h0 hdrop hbody hfin
    obtain ⟨h1, h2, h3⟩ := getD_of_drop hdrop
    obtain ⟨k, rfl⟩ : ∃ k, fuel = k + 1 := ⟨fuel - 1, by omega⟩
    unfold EncryptionService.skipVarintU
    rw [if_pos ⟨h0, by omega⟩, h1, Nat.mod_eq_of_lt (show fin < 256 by omega)]
    rw [if_pos (land128_of_lt fin hfin)]
    norm_num
  | cons x body ih =>
    intro fuel off fin rest hf h0 hdrop hbody hfin
    rw [show (x :: body) ++ fin :: rest = x :: (body ++ fin :: rest) from rfl] at hdrop
    obtain ⟨h1, h2, h3⟩ := getD_of_drop hdrop
    obtain ⟨k, rfl⟩ : ∃ k, fuel = k + 1 := ⟨fuel - 1, by omega⟩
    unfold EncryptionService.skipVarintU
    rw [if_pos ⟨h0, by omega⟩, h1, Nat.mod_eq_of_lt (hbody x (by simp)).2]
    rw [if_neg (by rw [land128_of_ge x (hbody x (by simp)).1 (hbody x (by simp)).2]; omega)]
    have hdrop' : buf.drop (off + 1).toNat = body ++ fin :: rest := by
      rw [show (off + 1).toNat = off.toNat + 1 by omega, h3]
    have hrec := ih k (off + 1) fin rest (by simp at hf ⊢; omega) (by omega) hdrop'
      (fun b hb => hbody b (by simp [hb])) hfin
    rw [hrec]
    congr 1
    simp only [List.length_cons]
    push_cast
    ring

theorem subLoop_iv_payload (iv : List Nat) (hiv : iv.length = 16)
    (found : Option (List Nat)) (fuel : Nat) (hf : 2 ≤ fuel) :
    EncryptionService.subLoop (10 :: 16 :: iv) fuel 0 found = .norm (some iv) := by
  obtain ⟨k, rfl⟩ : ∃ k, fuel = k + 2 := ⟨fuel - 2, by omega⟩
  have hlen : (10 :: 16 :: iv).length = 18 := by simp [hiv]
  rw [show k + 2 = (k + 1) + 1 from rfl]
  unfold EncryptionService.subLoop
  rw [if_pos (by rw [hlen]; norm_num)]
  rw [readVarintU_byte (by omega) (by norm_num) (by rw [hlen]; norm_num)
    (show (10 :: 16 :: iv).getD (0 : Int).toNat 0 = 10 from rfl) (by norm_num)]
  dsimp only
  rw [if_pos (by norm_num)]
  rw [readVarintU_byte (by omega) (by norm_num) (by rw [hlen]; norm_num)
    (show (10 :: 16 :: iv).getD ((0 : Int) + 1).toNat 0 = 16 from rfl) (by norm_num)]
  dsimp only
  rw [if_pos rfl]
  have hslice : jsSlice (10 :: 16 :: iv) (0 + 1 + 1) (0 + 1 + 1 + 16) = iv := by
    rw [jsSlice_eq_drop _ _ _ (by norm_num) (by rw [hlen]; norm_num)]
    rfl
  rw [hslice]
  rw [show asInt32 16 = 16 from asInt32_small (by norm_num)]
  unfold EncryptionService.subLoop
  rw [if_neg (by rw [hlen]; norm_num)]

theorem pbLoop_field3 (pb : List Nat) (iv : List Nat) (hiv : iv.length = 16)
    (off : Int) (h0 : 0 ≤ off) (hdrop : pb.drop off.toNat = field3Block iv)
    (hend : off.toNat + 20 = pb.length) (found : Option (List Nat))
    (fuel : Nat) (hf : 3 ≤ fuel) :
    EncryptionService.pbLoop pb fuel off found = some (some iv) := by
  obtain ⟨k, rfl⟩ : ∃ k, fuel = k + 3 := ⟨fuel - 3, by omega⟩
  obtain ⟨hb26, hlt26, hdrop1⟩ := getD_of_drop
    (show pb.drop off.toNat = 26 :: (18 :: 10 :: 16 :: iv) from hdrop)
  have hdrop1' : pb.drop (off + 1).toNat = 18 :: (10 :: 16 :: iv) := by
    rw [show (off + 1).toNat = off.toNat + 1 by omega, hdrop1]
  obtain ⟨hb18, hlt18, hdrop2⟩ := getD_of_drop hdrop1'
  rw [show k + 3 = (k + 2) + 1 from rfl]
  unfold EncryptionService.pbLoop
  rw [if_pos (by omega)]
  rw [readVarintG_byte (by omega) h0 (by omega) hb26 (by norm_num)]
  dsimp only
  rw [if_pos (by norm_num)]
  rw [readVarintG_byte (by omega) (by omega) (by omega) hb18 (by norm_num)]
  dsimp only
  rw [if_pos (by norm_num)]
  rw [show asInt32 18 = 18 from asInt32_small (by norm_num)]
  have hpayload : jsSlice pb (off + 1 + 1) (off + 1 + 1 + 18) = 10 :: 16 :: iv := by
    rw [jsSlice_eq_drop _ _ _ (by omega) (by omega)]
    rw [show (off + 1 + 1).toNat = off.toNat + 1 + 1 by omega]
    rw [← List.drop_drop, hdrop1]
    rfl
  rw [hpayload]
  rw [subLoop_iv_payload iv hiv found (k + 2) (by omega)]
  unfold EncryptionService.pbLoop
  rw [if_neg (by omega)]

theorem pbLoop_skips_field (pb : List Nat) (u : List Nat) (hu : SkippableField u)
    (k : Nat) (off : Int) (h0 : 0 ≤ off) (rest : List Nat)
    (hdrop : pb.drop off.toNat = u ++ rest) (found : Option (List Nat)) :
    EncryptionService.pbLoop pb (k + 1) off found =
      EncryptionService.pbLoop pb k (off + u.length) found := by
  rcases hu with ⟨t, body, fin, huu, ht, hw, hbody, hfin⟩ | ⟨t, body, huu, ht, hw, hlen⟩ |
    ⟨t, body, huu, ht, hw, hlen⟩ | ⟨t, d, body, huu, ht, hw, hfield, hd, hlen⟩
  · -- wire type 0: varint field
    subst huu
    have hdrop0 : pb.drop off.toNat = t :: (body ++ fin :: rest) := by
      simpa [List.append_assoc] using hdrop
    obtain ⟨hb, hlt, hdrop1⟩ := getD_of_drop hdrop0
    conv_lhs => unfold EncryptionService.pbLoop
    rw [if_pos (by omega)]
    rw [readVarintG_byte (by omega) h0 (by omega) hb ht]
    dsimp only
    rw [if_neg (by omega), if_pos hw]
    have hdrop1' : pb.drop (off + 1).toNat = body ++ fin :: rest := by
      rw [show (off + 1).toNat = off.toNat + 1 by omega, hdrop1]
    have hlb : body.length + 1 ≤ pb.length + 1 := by
      have hl := congrArg List.length hdrop1'
      simp only [List.length_drop, List.length_append, List.length_cons] at hl
      omega
    rw [skipVarintU_skips pb body (pb.length + 1) (off + 1) fin rest hlb (by omega)
      hdrop1' hbody hfin]
    have heq : off + 1 + (body.length : Int) + 1 = off + ((t :: (body ++ [fin])).length : Int) := by
      simp only [List.length_cons, List.length_append, List.length_nil]
      push_cast
      ring
    rw [heq]
    rfl
  · -- wire type 1: fixed64 field
    subst huu
    have hdrop0 : pb.drop off.toNat = t :: (body ++ rest) := by simpa using hdrop
    obtain ⟨hb, hlt, hdrop1⟩ := getD_of_drop hdrop0
    conv_lhs => unfold EncryptionService.pbLoop
    rw [if_pos (by omega)]
    rw [readVarintG_byte (by omega) h0 (by omega) hb ht]
    dsimp only
    rw [if_neg (by omega), if_neg (by omega), if_pos hw]
    have heq : off + 1 + (8 : Int) = off + ((t :: body).length : Int) := by
      simp only [List.length_cons, hlen]
      push_cast
      ring
    rw [heq]
  · -- wire type 5: fixed32 field
    subst huu
    have hdrop0 : pb.drop off.toNat = t :: (body ++ rest) := by simpa using hdrop
    obtain ⟨hb, hlt, hdrop1⟩ := getD_of_drop hdrop0
    conv_lhs => unfold EncryptionService.pbLoop
    rw [if_pos (by omega)]
    rw [readVarintG_byte (by omega) h0 (by omega) hb ht]
    dsimp only
    rw [if_neg (by omega), if_neg (by omega), if_neg (by omega), if_pos hw]
    have heq : off + 1 + (4 : Int) = off + ((t :: body).length : Int) := by
      simp only [List.length_cons, hlen]
      push_cast
      ring
    rw [heq]
  · -- wire type 2, field number other than 3: length-delimited field
    subst huu
    have hdrop0 : pb.drop off.toNat = t :: (d :: (body ++ rest)) := by simpa using hdrop
    obtain ⟨hb, hlt, hdrop1⟩ := getD_of_drop hdrop0
    have hdrop1' : pb.drop (off + 1).toNat = d :: (body ++ rest) := by
      rw [show (off + 1).toNat = off.toNat + 1 by omega, hdrop1]
    obtain ⟨hbd, hltd, hdrop2⟩ := getD_of_drop hdrop1'
    conv_lhs => unfold EncryptionService.pbLoop
    rw [if_pos (by omega)]
    rw [readVarintG_byte (by omega) h0 (by omega) hb ht]
    dsimp only
    rw [if_pos hw]
    rw [readVarintG_byte (by omega) (by omega) (by omega) hbd (by omega)]
    dsimp only
    rw [if_neg hfield]
    rw [asInt32_small (by omega)]
    have heq : off + 1 + 1 + (d : Int) = off + ((t :: d :: body).length : Int) := by
      simp only [List.length_cons, hlen]
      push_cast
      ring
    rw [heq]

/-- C6: for every header region consisting of a well-formed unknown top-level
field — of varint, fixed-32, fixed-64, or length-delimited wire type —
interleaved before a valid field-number-3 sub-message whose sub-field 1 is a
length-delimited value of exactly 16 bytes, the structured-encoding header
walker (in both the service module and the worker) still recovers those 16
bytes as the IV. -/
theorem c6_skip_unknown_field_recovers_iv (u iv : List Nat) (hu : SkippableField u)
    (hiv : iv.length = 16) (fuel : Nat) (hf : 4 ≤ fuel) :
    EncryptionService.pbLoop (u ++ field3Block iv) fuel 0 none = some (some iv) ∧
    BackupWorker.pbLoop (u ++ field3Block iv) fuel 0 none = some (some iv) := by
  have hs : EncryptionService.pbLoop (u ++ field3Block iv) fuel 0 none = some (some iv) := by
    obtain ⟨k, rfl⟩ : ∃ k, fuel = k + 4 := ⟨fuel - 4, by omega⟩
    rw [show k + 4 = (k + 3) + 1 from rfl]
    rw [pbLoop_skips_field (u ++ field3Block iv) u hu (k + 3) 0 le_rfl (field3Block iv)
      (by simp) none]
    apply pbLoop_field3
    · exact hiv
    · omega
    · rw [show ((0 : Int) + (u.length : Int)).toNat = u.length by omega]
      exact List.drop_left u (field3Block iv)
    · rw [show ((0 : Int) + (u.length : Int)).toNat = u.length by omega]
      simp [field3Block, hiv]
    · omega
  exact ⟨hs, by rw [pbLoop_worker_eq]; exact hs⟩

theorem c6_skip_unknown_field_recovers_iv_witness :
    SkippableField [13, 1, 2, 3, 4] ∧ (List.range 16).length = 16 ∧
    EncryptionService.pbLoop ([13, 1, 2, 3, 4] ++ field3Block (List.range 16)) 10 0 none =
      some (some (List.range 16)) ∧
    BackupWorker.pbLoop ([13, 1, 2, 3, 4] ++ field3Block (List.range 16)) 10 0 none =
      some (some (List.range 16)) := by
  have hu : SkippableField [13, 1, 2, 3, 4] :=
    Or.inr (Or.inr (Or.inl ⟨13, [1, 2, 3, 4], rfl, by norm_num, by norm_num, rfl⟩))
  have h := c6_skip_unknown_field_recovers_iv [13, 1, 2, 3, 4] (List.range 16) hu
    (by decide) 10 (by norm_num)
  exact ⟨hu, by decide, h.1, h.2⟩

theorem getD_append_left {p t : List Nat} {n : Nat} (h : n < p.length) :
    (p ++ t).getD n 0 = p.getD n 0 := by
  simp [List.getD_eq_getElem?_getD, List.getElem?_append_left h]

theorem jsSlice_append_indep (p t1 t2 : List Nat) (hlen : t1.length = t2.length)
    (s e : Int) (he : jsIndex (p ++ t1).length e ≤ p.length) :
    jsSlice (p ++ t1) s e = jsSlice (p ++ t2) s e := by
  have hL : (p ++ t2).length = (p ++ t1).length := by simp [hlen]
  unfold jsSlice
  rw [hL, List.take_append_of_le_length he, List.take_append_of_le_length he]

/-- C10 (amended): two crypt15 containers of equal length that differ only in
their final 16 bytes decode identically — same output buffer or same error,
for every primitive instance and every fuel — provided no pipeline read
overlaps those 16 bytes: the header region must end at or before
`length - 16`, and the length must be at least 40 so the fallback IV window
(bytes 8..24) also stays clear of the trailer. -/
theorem c10_trailer_independence (c : CryptoPrims) (fuel : Nat)
    (p t1 t2 rawKey : List Nat) (h1 : t1.length = 16) (h2 : t2.length = 16)
    (hn : 40 ≤ p.length + 16)
    (hend : c15End (p ++ t1) ≤ (p.length : Int)) :
    EncryptionService.decryptDatabase c fuel (p ++ t1) .crypt15 rawKey =
      EncryptionService.decryptDatabase c fuel (p ++ t2) .crypt15 rawKey := by
  have hlen12 : t1.length = t2.length := by omega
  have hL1 : (p ++ t1).length = p.length + 16 := by simp [h1]
  have hL2 : (p ++ t2).length = p.length + 16 := by simp [h2]
  have hstart : c15Start (p ++ t2) = c15Start (p ++ t1) := by
    unfold c15Start
    rw [getD_append_left (by omega), getD_append_left (by omega)]
  have hende : c15End (p ++ t2) = c15End (p ++ t1) := by
    unfold c15End
    rw [hstart, getD_append_left (by omega), getD_append_left (by omega)]
  have hst1 : 1 ≤ c15Start (p ++ t1) := by
    unfold c15Start
    split <;> norm_num
  have hst2 : 1 ≤ c15Start (p ++ t2) := by
    unfold c15Start
    split <;> norm_num
  have hce1 : c15Start (p ++ t1) ≤ c15End (p ++ t1) := by
    unfold c15End
    omega
  have hce2 : c15Start (p ++ t2) ≤ c15End (p ++ t2) := by
    unfold c15End
    omega
  have hend2 : c15End (p ++ t2) ≤ (p.length : Int) := by omega
  have hregion : c15Region (p ++ t2) = c15Region (p ++ t1) := by
    unfold c15Region
    rw [hstart, hende]
    exact (jsSlice_append_indep p t1 t2 hlen12 _ _ (by
      unfold jsIndex
      rw [if_neg (by omega)]
      omega)).symm
  have htag : c15TagSlice (p ++ t2) = c15TagSlice (p ++ t1) := by
    unfold c15TagSlice
    rw [hL1, hL2]
    exact (jsSlice_append_indep p t1 t2 hlen12 _ _ (by
      rw [hL1]
      unfold jsIndex
      rw [if_neg (by omega)]
      omega)).symm
  have hct : c15Ciphertext (p ++ t2) = c15Ciphertext (p ++ t1) := by
    unfold c15Ciphertext
    rw [hL1, hL2, hende]
    exact (jsSlice_append_indep p t1 t2 hlen12 _ _ (by
      rw [hL1]
      unfold jsIndex
      rw [if_neg (by omega)]
      omega)).symm
  have hiv : ∀ f : Option (List Nat), c15IV (p ++ t2) f = c15IV (p ++ t1) f := by
    intro f
    cases f with
    | some v => rfl
    | none =>
      unfold c15IV c15FallbackIV
      dsimp only [Option.getD]
      congr 1
      exact (jsSlice_append_indep p t1 t2 hlen12 8 24 (by
        unfold jsIndex
        rw [if_neg (by omega)]
        omega)).symm
  rw [decrypt15_characterization c fuel (p ++ t1) rawKey (by omega),
    decrypt15_characterization c fuel (p ++ t2) rawKey (by omega)]
  rw [hregion]
  simp only [htag, hct, hiv]

theorem c10_trailer_independence_witness :
    c15End (([1, 0] ++ List.replicate 22 0) ++ List.replicate 16 7) ≤
      ((([1, 0] ++ List.replicate 22 0) : List Nat).length : Int) ∧
    EncryptionService.decryptDatabase okPrims 10
        (([1, 0] ++ List.replicate 22 0) ++ List.replicate 16 7) .crypt15
        (List.replicate 32 0) =
      EncryptionService.decryptDatabase okPrims 10
        (([1, 0] ++ List.replicate 22 0) ++ List.replicate 16 9) .crypt15
        (List.replicate 32 0) :=
  ⟨by decide,
    c10_trailer_independence okPrims 10 ([1, 0] ++ List.replicate 22 0)
      (List.replicate 16 7) (List.replicate 16 9) (List.replicate 32 0)
      (by simp) (by simp) (by simp) (by decide)⟩

/-- C10 counterexample: a size byte of 38 makes the (clamped) header region of
a 40-byte container extend past `length - 16`, so the scanned IV is read from
the trailing 16 bytes: two containers equal except in their final 16 bytes
then decode to different outputs. -/
theorem c10_header_overlap_counterexample :
    bufC10a.length = bufC10b.length ∧
    bufC10a.take (bufC10a.length - 16) = bufC10b.take (bufC10b.length - 16) ∧
    EncryptionService.decryptDatabase ivEchoPrims 10 bufC10a .crypt15
        (List.replicate 32 0) = some (.ok (List.replicate 15 5)) ∧
    EncryptionService.decryptDatabase ivEchoPrims 10 bufC10b .crypt15
        (List.replicate 32 0) = some (.ok (List.replicate 15 9)) ∧
    (List.replicate 15 5 : List Nat) ≠ List.replicate 15 9 := by
  exact ⟨by rfl, by rfl, by rfl, by rfl, by decide⟩

theorem jsTrim_length_le (s : List Char) :
    (EncryptionService.jsTrim s).length ≤ s.length := by
  have hq1 := (List.dropWhile_sublist (l := s) EncryptionService.isJsSpace).length_le
  have hq2 := (List.dropWhile_sublist
    (l := (s.dropWhile EncryptionService.isJsSpace).reverse)
    EncryptionService.isJsSpace).length_le
  unfold EncryptionService.jsTrim
  simp only [List.length_reverse] at *
  omega

theorem hexVal_lt (ch : Char) (h : EncryptionService.isHexJS ch = true) :
    EncryptionService.hexVal ch < 16 := by
  unfold EncryptionService.isHexJS at h
  rw [decide_eq_true_eq] at h
  unfold EncryptionService.hexVal
  rcases h with ⟨ha, hb⟩ | ⟨ha, hb⟩ | ⟨ha, hb⟩
  · rw [if_pos ⟨ha, hb⟩]; omega
  · rw [if_neg (by omega), if_pos ⟨ha, hb⟩]; omega
  · rw [if_neg (by omega), if_neg (by omega), if_pos ⟨ha, hb⟩]; omega

theorem hexChar_hexVal (ch : Char) (h : EncryptionService.isHexJS ch = true) :
    hexChar (EncryptionService.hexVal ch) = jsToLower ch := by
  unfold EncryptionService.isHexJS at h
  rw [decide_eq_true_eq] at h
  rcases h with ⟨ha, hb⟩ | ⟨ha, hb⟩ | ⟨ha, hb⟩
  · have hv : EncryptionService.hexVal ch = ch.toNat - 48 := by
      unfold EncryptionService.hexVal
      rw [if_pos ⟨ha, hb⟩]
    rw [hv]
    unfold hexChar jsToLower
    rw [if_pos (by omega), if_neg (by omega),
      show 48 + (ch.toNat - 48) = ch.toNat by omega, Char.ofNat_toNat]
  · have hv : EncryptionService.hexVal ch = ch.toNat - 87 := by
      unfold EncryptionService.hexVal
      rw [if_neg (by omega), if_pos ⟨ha, hb⟩]
    rw [hv]
    unfold hexChar jsToLower
    rw [if_neg (by omega), if_neg (by omega),
      show 87 + (ch.toNat - 87) = ch.toNat by omega, Char.ofNat_toNat]
  · have hv : EncryptionService.hexVal ch = ch.toNat - 55 := by
      unfold EncryptionService.hexVal
      rw [if_neg (by omega), if_neg (by omega), if_pos ⟨ha, hb⟩]
    rw [hv]
    unfold hexChar jsToLower
    rw [if_neg (by omega), if_pos ⟨ha, by omega⟩]
    congr 1
    omega

theorem chunkPairs_length_even : ∀ text : List Char, text.length % 2 = 0 →
    (EncryptionService.chunkPairs text).length = text.length / 2
  | [], _ => rfl
  | [c1], h => by simp at h
  | c1 :: c2 :: rest, h => by
    unfold EncryptionService.chunkPairs
    simp only [List.length_cons]
    rw [chunkPairs_length_even rest (by simp only [List.length_cons] at h; omega)]
    omega

theorem hexRoundtrip : ∀ text : List Char,
    (∀ ch ∈ text, EncryptionService.isHexJS ch = true) → text.length % 2 = 0 →
    hexEncode ((EncryptionService.chunkPairs text).map
      fun b => EncryptionService.parseIntHex b % 256) = text.map jsToLower
  | [], _, _ => rfl
  | [c1], _, h => by simp at h
  | c1 :: c2 :: rest, hhex, heven => by
    have h1 := hhex c1 (by simp)
    have h2 := hhex c2 (by simp)
    have hv1 := hexVal_lt c1 h1
    have hv2 := hexVal_lt c2 h2
    have hrec := hexRoundtrip rest (fun ch hc => hhex ch (by simp [hc]))
      (by simp only [List.length_cons] at heven ⊢; omega)
    unfold EncryptionService.chunkPairs
    simp only [List.map_cons]
    have hn : EncryptionService.parseIntHex [c1, c2] % 256 =
        16 * EncryptionService.hexVal c1 + EncryptionService.hexVal c2 := by
      rw [show EncryptionService.parseIntHex [c1, c2] =
        16 * EncryptionService.hexVal c1 + EncryptionService.hexVal c2 from rfl]
      exact Nat.mod_eq_of_lt (by omega)
    rw [hn]
    have hcons : ∀ (x : Nat) (xs : List Nat),
        hexEncode (x :: xs) = hexChar (x / 16) :: hexChar (x % 16) :: hexEncode xs :=
      fun x xs => rfl
    rw [hcons]
    have hdiv : (16 * EncryptionService.hexVal c1 + EncryptionService.hexVal c2) / 16 =
        EncryptionService.hexVal c1 := by omega
    have hmod : (16 * EncryptionService.hexVal c1 + EncryptionService.hexVal c2) % 16 =
        EncryptionService.hexVal c2 := by omega
    rw [hdiv, hmod, hexChar_hexVal c1 h1, hexChar_hexVal c2 h2, hrec]

/-- C9 (amended): for every key-material input whose length is not 158 and
whose text decoding, after trimming, is a 64-character `[0-9a-fA-F]` string,
the Key Normalizer returns 32 bytes whose lower-case hex re-encoding
reproduces the case-normalized input.  (A real text decoding never has more
characters than the buffer has bytes — hypothesis `hshrink` — which rules the
32-byte branch out automatically; 158-byte buffers take the fixed-slice branch
first and must be excluded.) -/
theorem c9_hex_roundtrip (textDecode : List Nat → List Char) (buf : List Nat)
    (hshrink : (textDecode buf).length ≤ buf.length)
    (h158 : buf.length ≠ 158)
    (hlen : (EncryptionService.jsTrim (textDecode buf)).length = 64)
    (hhex : (EncryptionService.jsTrim (textDecode buf)).all
      EncryptionService.isHexJS = true) :
    EncryptionService.extractKey textDecode buf =
      .ok ((EncryptionService.chunkPairs (EncryptionService.jsTrim (textDecode buf))).map
        fun b => EncryptionService.parseIntHex b % 256) ∧
    ((EncryptionService.chunkPairs (EncryptionService.jsTrim (textDecode buf))).map
        fun b => EncryptionService.parseIntHex b % 256).length = 32 ∧
    hexEncode ((EncryptionService.chunkPairs (EncryptionService.jsTrim (textDecode buf))).map
        fun b => EncryptionService.parseIntHex b % 256) =
      (EncryptionService.jsTrim (textDecode buf)).map jsToLower := by
  have h32 : buf.length ≠ 32 := by
    intro hq
    have hq2 := jsTrim_length_le (textDecode buf)
    omega
  refine ⟨?_, ?_, ?_⟩
  · unfold EncryptionService.extractKey
    rw [if_neg h32, if_neg h158]
    dsimp only
    rw [if_pos ⟨hlen, hhex⟩]
  · rw [List.length_map, chunkPairs_length_even _ (by omega), hlen]
  · exact hexRoundtrip _ (fun ch hc => by
      have := List.all_eq_true.mp hhex ch hc
      exact this) (by omega)

theorem c9_hex_roundtrip_witness :
    EncryptionService.extractKey asciiDecode (List.replicate 64 65) =
      .ok ((EncryptionService.chunkPairs
          (EncryptionService.jsTrim (asciiDecode (List.replicate 64 65)))).map
        fun b => EncryptionService.parseIntHex b % 256) ∧
    ((EncryptionService.chunkPairs
        (EncryptionService.jsTrim (asciiDecode (List.replicate 64 65)))).map
        fun b => EncryptionService.parseIntHex b % 256).length = 32 ∧
    hexEncode ((EncryptionService.chunkPairs
        (EncryptionService.jsTrim (asciiDecode (List.replicate 64 65)))).map
        fun b => EncryptionService.parseIntHex b % 256) =
      (EncryptionService.jsTrim (asciiDecode (List.replicate 64 65))).map jsToLower :=
  c9_hex_roundtrip asciiDecode (List.replicate 64 65) (by simp [asciiDecode])
    (by simp) (by rfl) (by rfl)

/-- C9 counterexample: a 158-byte key-material buffer of 94 spaces followed by
64 ASCII "a" characters decodes (after trimming) to the 64-hex-character
string "aa…a", but the Key Normalizer takes the fixed 158-byte branch and
returns bytes 126..158 — 32 bytes of 0x61 — whose hex re-encoding "6161…61"
does not reproduce the input string. -/
theorem c9_padded_158_counterexample :
    (EncryptionService.jsTrim (asciiDecode bufC9)).length = 64 ∧
    (EncryptionService.jsTrim (asciiDecode bufC9)).all EncryptionService.isHexJS = true ∧
    EncryptionService.extractKey asciiDecode bufC9 = .ok (List.replicate 32 97) ∧
    hexEncode (List.replicate 32 97) ≠
      (EncryptionService.jsTrim (asciiDecode bufC9)).map jsToLower := by
  exact ⟨by rfl, by rfl, by rfl, by decide⟩
